import Mathlib

/-!
Verification development for the multiplayer game server (server.py).

The server keeps a player map (a Python dict, i.e. an insertion-ordered
association list from player id to a player record), a bullet list, the
socket registries, a monotonically increasing id counter, and an optional
session start timestamp.  We embed the state and the four kinds of state
transitions (client intent messages, the simulation tick, client teardown
on disconnect, and connection admission) as pure Lean functions, with
rationals standing in for Python floats and `Int` for Python ints.
-/

/-- One player record, `players[player_id]` in server.py. -/
structure Player where
  pos : ℚ × ℚ
  color : Nat × Nat × Nat
  health : Int
  kills : Nat
  is_dead : Bool
  deriving Repr, DecidableEq

/-- One bullet record in the `bullets` list. -/
structure Bullet where
  x : ℚ
  y : ℚ
  dx : ℚ
  dy : ℚ
  owner_id : Nat
  deriving Repr, DecidableEq

/-- The `players` dict: an insertion-ordered association list. -/
abbrev PlayerMap := List (Nat × Player)

/-- Dict read `players.get(k)`: first (only, as dict keys are unique) entry. -/
def lookupP (ps : PlayerMap) (k : Nat) : Option Player :=
  (ps.find? (fun e => e.1 == k)).map (fun e => e.2)

/-- Dict membership test `k in players`. -/
def containsP (ps : PlayerMap) (k : Nat) : Bool :=
  ps.any (fun e => e.1 == k)

/-- In-place mutation of the record stored at key `k` (order preserving). -/
def updateP (ps : PlayerMap) (k : Nat) (f : Player → Player) : PlayerMap :=
  ps.map (fun e => if e.1 = k then (e.1, f e.2) else e)

/-- Dict assignment `players[k] = v`: replace in place, or append a new key. -/
def insertP (ps : PlayerMap) (k : Nat) (v : Player) : PlayerMap :=
  if containsP ps k then ps.map (fun e => if e.1 = k then (k, v) else e)
  else ps ++ [(k, v)]

/-- Dict deletion `if k in players: del players[k]`. -/
def removeP (ps : PlayerMap) (k : Nat) : PlayerMap :=
  ps.filter (fun e => e.1 != k)

/-- `player_connections` dict assignment (replace or append). -/
def insertConn (l : List (Nat × Nat)) (k : Nat) (v : Nat) : List (Nat × Nat) :=
  if l.any (fun e => e.1 == k) then l.map (fun e => if e.1 = k then (k, v) else e)
  else l ++ [(k, v)]

def MAX_PLAYERS : Nat := 5
def GAME_DURATION : ℚ := 300
def BULLET_SPEED : ℚ := 10
def DAMAGE : Int := 25
def START_THRESHOLD : Nat := 4

/-- The whole mutable server state (the module-level globals of server.py). -/
structure ServerState where
  players : PlayerMap
  bullets : List Bullet
  client_sockets : List Nat
  player_connections : List (Nat × Nat)
  next_player_id : Nat
  game_start_time : Option ℚ
  deriving Repr, DecidableEq

/-- A decoded client message; absent dict fields are `none`
    (`msg.get("dx", 0)` etc. default missing fields). -/
structure Msg where
  action : String
  player_id : Option Nat
  dx : Option ℚ
  dy : Option ℚ

/-- `pid in players and players[pid]["is_dead"]`: the dead-sender check. -/
def deadSender (ps : PlayerMap) : Option Nat → Bool
  | some pid =>
    match lookupP ps pid with
    | some p => p.is_dead
    | none => false
  | none => false

/-- One iteration of the receive loop body of `handle_client`:
    dispatch a decoded message against the shared state. -/
def handleMessage (s : ServerState) (m : Msg) : ServerState :=
  if deadSender s.players m.player_id then s
  else if m.action = "move" then
    match m.player_id with
    | some pid =>
      match lookupP s.players pid with
      | some _ =>
        let ps' := updateP s.players pid
          (fun p => { p with pos := (p.pos.1 + m.dx.getD 0, p.pos.2 + m.dy.getD 0) })
        { s with players := ps' }
      | none => s
    | none => s
  else if m.action = "shoot" then
    match m.player_id with
    | some pid =>
      match lookupP s.players pid with
      | some p =>
        { s with bullets := s.bullets ++
            [{ x := p.pos.1, y := p.pos.2,
               dx := m.dx.getD 0 * BULLET_SPEED, dy := m.dy.getD 0 * BULLET_SPEED,
               owner_id := pid }] }
      | none => s
    | none => s
  else s

/-- The `finally` block of `handle_client`: deregister a disconnecting client. -/
def clientTeardown (s : ServerState) (player_id : Nat) (conn : Nat) : ServerState :=
  { s with players := removeP s.players player_id,
           client_sockets := s.client_sockets.erase conn,
           player_connections := s.player_connections.filter (fun e => e.1 != player_id) }

/-- AABB overlap test of `check_bullet_collisions`:
    bullet box 8x8 centred on (x, y), player box 20x20 centred on pos. -/
def overlaps (b : Bullet) (p : Player) : Bool :=
  decide (b.x + 4 ≥ p.pos.1 - 10) && decide (b.x - 4 ≤ p.pos.1 + 10) &&
  decide (b.y + 4 ≥ p.pos.2 - 10) && decide (b.y - 4 ≤ p.pos.2 + 10)

/-- The `continue` filter of the inner loop: skip the owner and dead players. -/
def eligible (owner : Nat) (pid : Nat) (p : Player) : Bool :=
  !(pid == owner) && !p.is_dead

/-- The inner player loop up to its `break`: the first player that is
    neither the owner nor dead and overlaps the bullet. -/
def findVictim (b : Bullet) (ps : PlayerMap) : Option (Nat × Player) :=
  ps.find? (fun e => eligible b.owner_id e.1 e.2 && overlaps b e.2)

/-- The collision branch: damage the victim; on death, credit the owner
    (when still present) and mark the victim dead with health clamped to 0. -/
def applyHit (owner : Nat) (pid : Nat) (p : Player) (ps : PlayerMap) : PlayerMap :=
  let newHealth := p.health - DAMAGE
  let ps1 := updateP ps pid (fun q => { q with health := newHealth })
  if newHealth ≤ 0 then
    let ps2 :=
      if containsP ps1 owner then
        updateP ps1 owner (fun q => { q with kills := q.kills + 1 })
      else ps1
    updateP ps2 pid (fun q => { q with is_dead := true, health := 0 })
  else ps1

/-- Resolve a single bullet: players map after the inner loop, and whether
    the bullet hit something. -/
def resolveBullet (b : Bullet) (ps : PlayerMap) : PlayerMap × Bool :=
  match findVictim b ps with
  | some v => (applyHit b.owner_id v.1 v.2 ps, true)
  | none => (ps, false)

/-- `check_bullet_collisions`: fold every bullet through the player map,
    keeping (unchanged) exactly the bullets that hit nothing. -/
def check_bullet_collisions (ps : PlayerMap) : List Bullet → PlayerMap × List Bullet
  | [] => (ps, [])
  | b :: rest =>
    let r := resolveBullet b ps
    let rest' := check_bullet_collisions r.1 rest
    (rest'.1, if r.2 then rest'.2 else b :: rest'.2)

/-- Bullet integration: `b["x"] += b["dx"]; b["y"] += b["dy"]`. -/
def advanceBullet (b : Bullet) : Bullet :=
  { b with x := b.x + b.dx, y := b.y + b.dy }

/-- The culling predicate: `0 <= x <= 800 and 0 <= y <= 600`. -/
def inBounds (b : Bullet) : Bool :=
  decide (0 ≤ b.x) && decide (b.x ≤ 800) && decide (0 ≤ b.y) && decide (b.y ≤ 600)

/-- One iteration of `game_loop`: integrate, cull, resolve collisions. -/
def gameTick (s : ServerState) : ServerState :=
  let moved := s.bullets.map advanceBullet
  let culled := moved.filter inBounds
  let after := check_bullet_collisions s.players culled
  { s with players := after.1, bullets := after.2 }

/-- The countdown of `broadcast_game_state`: full duration until the session
    starts, then the remaining time floored at zero. -/
def timeLeft (start : Option ℚ) (now : ℚ) : ℚ :=
  match start with
  | some t => max 0 (GAME_DURATION - (now - t))
  | none => GAME_DURATION

/-- The state snapshot `broadcast_game_state` serializes each tick. -/
structure Snapshot where
  players : PlayerMap
  bullets : List Bullet
  time_left : ℚ

def broadcastState (s : ServerState) (now : ℚ) : Snapshot :=
  { players := s.players, bullets := s.bullets, time_left := timeLeft s.game_start_time now }

/-- A full tick of `game_loop`: simulate, then take the broadcast snapshot. -/
def tickSnapshot (s : ServerState) (now : ℚ) : Snapshot :=
  broadcastState (gameTick s) now

/-- Messages the accept loop sends to the connecting socket. -/
inductive OutMsg where
  | server_full : OutMsg
  | handshake : Nat → Nat → OutMsg
  deriving Repr, DecidableEq

/-- One iteration of the accept loop of `main`: reject at capacity, else
    register a fresh player and possibly start the session clock. -/
def acceptConnection (s : ServerState) (conn : Nat) (color : Nat × Nat × Nat) (now : ℚ) :
    ServerState × List OutMsg :=
  if s.players.length ≥ MAX_PLAYERS then (s, [OutMsg.server_full])
  else
    let player_id := s.next_player_id
    let players1 := insertP s.players player_id
      { pos := (400, 300), color := color, health := 100, kills := 0, is_dead := false }
    let start1 :=
      if s.game_start_time = none ∧ players1.length ≥ START_THRESHOLD then some now
      else s.game_start_time
    ({ players := players1,
       bullets := s.bullets,
       client_sockets := s.client_sockets ++ [conn],
       player_connections := insertConn s.player_connections player_id conn,
       next_player_id := player_id + 1,
       game_start_time := start1 },
     [OutMsg.handshake player_id MAX_PLAYERS])

/-- Every state transition the server performs on its shared state. -/
inductive Op where
  | clientMsg : Msg → Op
  | tick : Op
  | disconnect : Nat → Nat → Op
  | connect : Nat → Nat × Nat × Nat → ℚ → Op

def applyOp (s : ServerState) : Op → ServerState
  | Op.clientMsg m => handleMessage s m
  | Op.tick => gameTick s
  | Op.disconnect pid conn => clientTeardown s pid conn
  | Op.connect conn color now => (acceptConnection s conn color now).1

def applyOps (s : ServerState) (ops : List Op) : ServerState :=
  ops.foldl applyOp s

/-- The initial global state of server.py. -/
def initState : ServerState :=
  { players := [], bullets := [], client_sockets := [], player_connections := [],
    next_player_id := 0, game_start_time := none }

/-- States the running server can be in. -/
inductive Reachable : ServerState → Prop where
  | init : Reachable initState
  | step : ∀ s op, Reachable s → Reachable (applyOp s op)

/-- The spec invariant on a single player record:
    health in [0, 100], and zero exactly when dead. -/
def healthInv (p : Player) : Prop :=
  0 ≤ p.health ∧ p.health ≤ 100 ∧ (p.health = 0 ↔ p.is_dead = true)

instance (p : Player) : Decidable (healthInv p) := by
  unfold healthInv; infer_instance

def keysOf (ps : PlayerMap) : List Nat := ps.map Prod.fst

/-- Structural facts the running server maintains: dict keys are unique,
    every assigned id is below the id counter, and every record satisfies
    the health invariant. -/
def StateInv (s : ServerState) : Prop :=
  (keysOf s.players).Nodup ∧
  (∀ e ∈ s.players, e.1 < s.next_player_id) ∧
  (∀ e ∈ s.players, healthInv e.2)

/-! ### Association-list lemmas (the Python dict model) -/

theorem find?_first {α : Type} (p : α → Bool) (l : List α) (x : α)
    (h : l.find? p = some x) :
    ∃ l1 l2, l = l1 ++ x :: l2 ∧ (∀ y ∈ l1, p y = false) ∧ p x = true := by
  induction l with
  | nil => simp at h
  | cons a t ih =>
    cases hp : p a with
    | true =>
      rw [List.find?_cons_of_pos _ hp] at h
      obtain rfl := Option.some_inj.mp h
      exact ⟨[], t, rfl, by simp, hp⟩
    | false =>
      rw [List.find?_cons_of_neg _ (by simp [hp])] at h
      obtain ⟨l1, l2, hl, hall, hx⟩ := ih h
      exact ⟨a :: l1, l2, by simp [hl], by simpa [hp] using hall, hx⟩

theorem keysOf_updateP (ps : PlayerMap) (k : Nat) (f : Player → Player) :
    keysOf (updateP ps k f) = keysOf ps := by
  induction ps with
  | nil => rfl
  | cons e t ih =>
    by_cases h : e.1 = k <;>
      simpa [keysOf, updateP, h] using congrArg (List.cons e.1) ih

theorem mem_updateP {ps : PlayerMap} {k : Nat} {f : Player → Player} {e : Nat × Player}
    (h : e ∈ updateP ps k f) :
    ∃ e0 ∈ ps, e = if e0.1 = k then (e0.1, f e0.2) else e0 := by
  simp only [updateP, List.mem_map] at h
  obtain ⟨e0, he0, heq⟩ := h
  exact ⟨e0, he0, heq.symm⟩

theorem lookupP_updateP_self (ps : PlayerMap) (k : Nat) (f : Player → Player) :
    lookupP (updateP ps k f) k = (lookupP ps k).map f := by
  induction ps with
  | nil => rfl
  | cons e t ih =>
    by_cases h : e.1 = k
    · simp [lookupP, updateP, List.find?_cons_of_pos, h]
    · simp only [updateP, List.map_cons, if_neg h]
      simp only [lookupP] at ih ⊢
      rw [List.find?_cons_of_neg _ (by simp [h]), List.find?_cons_of_neg _ (by simp [h])]
      exact ih

theorem lookupP_updateP_ne (ps : PlayerMap) (k k' : Nat) (f : Player → Player)
    (h : k' ≠ k) : lookupP (updateP ps k f) k' = lookupP ps k' := by
  induction ps with
  | nil => rfl
  | cons e t ih =>
    by_cases hek : e.1 = k
    · simp only [updateP, List.map_cons, if_pos hek]
      simp only [lookupP] at ih ⊢
      rw [List.find?_cons_of_neg _ (by simp [hek]; omega)]
      rw [List.find?_cons_of_neg _ (by simp [hek]; omega)]
      exact ih
    · simp only [updateP, List.map_cons, if_neg hek]
      by_cases hek' : e.1 = k'
      · simp [lookupP, List.find?_cons_of_pos, hek']
      · simp only [lookupP] at ih ⊢
        rw [List.find?_cons_of_neg _ (by simp [hek']), List.find?_cons_of_neg _ (by simp [hek'])]
        exact ih

theorem lookupP_of_mem_nodup {ps : PlayerMap} {k : Nat} {p : Player}
    (hnd : (keysOf ps).Nodup) (hm : (k, p) ∈ ps) : lookupP ps k = some p := by
  induction ps with
  | nil => simp at hm
  | cons e t ih =>
    rcases List.mem_cons.mp hm with he | ht
    · simp [lookupP, ← he, List.find?_cons_of_pos]
    · have hkt : k ∈ keysOf t := by
        simp only [keysOf, List.mem_map]
        exact ⟨(k, p), ht, rfl⟩
      have hne : e.1 ≠ k := by
        intro hc
        simp only [keysOf, List.map_cons, List.nodup_cons] at hnd
        exact hnd.1 (hc ▸ hkt)
      simp only [lookupP] at ih ⊢
      rw [List.find?_cons_of_neg _ (by simp [hne])]
      exact ih (by simpa [keysOf] using (List.nodup_cons.mp (by simpa [keysOf] using hnd)).2) ht

theorem lookupP_eq_none_iff {ps : PlayerMap} {k : Nat} :
    lookupP ps k = none ↔ ∀ e ∈ ps, e.1 ≠ k := by
  simp only [lookupP, Option.map_eq_none', List.find?_eq_none, beq_iff_eq]

theorem containsP_eq_isSome (ps : PlayerMap) (k : Nat) :
    containsP ps k = (lookupP ps k).isSome := by
  induction ps with
  | nil => rfl
  | cons e t ih =>
    by_cases h : e.1 = k
    · simp [containsP, lookupP, List.find?_cons_of_pos, h]
    · simp only [containsP, List.any_cons, beq_iff_eq, if_neg h, lookupP] at ih ⊢
      rw [List.find?_cons_of_neg _ (by simp [h])]
      simp [h, ih]

theorem lookupP_removeP_self (ps : PlayerMap) (k : Nat) :
    lookupP (removeP ps k) k = none := by
  rw [lookupP_eq_none_iff]
  intro e he
  have := List.of_mem_filter he
  simpa using this

theorem lookupP_removeP_ne (ps : PlayerMap) (k k' : Nat) (h : k' ≠ k) :
    lookupP (removeP ps k) k' = lookupP ps k' := by
  induction ps with
  | nil => rfl
  | cons e t ih =>
    by_cases hek : e.1 = k
    · simp only [removeP, List.filter_cons, bne_iff_ne, ne_eq] at ih ⊢
      rw [if_neg (by simp [hek])]
      rw [show lookupP (e :: t) k' = lookupP t k' from by
        simp only [lookupP]
        rw [List.find?_cons_of_neg _ (by simp [hek]; omega)]]
      exact ih
    · simp only [removeP, List.filter_cons] at ih ⊢
      rw [if_pos (by simp [hek])]
      by_cases hek' : e.1 = k'
      · simp [lookupP, List.find?_cons_of_pos, hek']
      · simp only [lookupP] at ih ⊢
        rw [List.find?_cons_of_neg _ (by simp [hek']), List.find?_cons_of_neg _ (by simp [hek'])]
        exact ih

theorem removeP_eq_self {ps : PlayerMap} {k : Nat} (h : lookupP ps k = none) :
    removeP ps k = ps := by
  rw [lookupP_eq_none_iff] at h
  exact List.filter_eq_self.mpr (fun e he => by simpa using h e he)

theorem lookupP_append_left (ps qs : PlayerMap) (k : Nat) (h : lookupP ps k ≠ none) :
    lookupP (ps ++ qs) k = lookupP ps k := by
  simp only [lookupP, List.find?_append] at h ⊢
  cases hf : ps.find? (fun e => e.1 == k) with
  | none => rw [hf] at h; simp at h
  | some e => simp [hf]

theorem lookupP_append_right (ps qs : PlayerMap) (k : Nat) (h : lookupP ps k = none) :
    lookupP (ps ++ qs) k = lookupP qs k := by
  have hf : ps.find? (fun e => e.1 == k) = none := by
    simpa [lookupP] using h
  simp [lookupP, List.find?_append, hf]

theorem insertP_not_contains {ps : PlayerMap} {k : Nat} {v : Player}
    (h : containsP ps k = false) : insertP ps k v = ps ++ [(k, v)] := by
  simp [insertP, h]

theorem mem_of_lookupP {ps : PlayerMap} {k : Nat} {p : Player}
    (h : lookupP ps k = some p) : (k, p) ∈ ps := by
  simp only [lookupP, Option.map_eq_some'] at h
  obtain ⟨e, he, hep⟩ := h
  have hmem := List.mem_of_find?_eq_some he
  have hpred := List.find?_some he
  simp only [beq_iff_eq] at hpred
  have : e = (k, p) := by
    cases e
    simp only at hpred hep
    simp [hpred, hep]
  exact this ▸ hmem

/-! ### Facts about resolving one bullet -/

theorem findVictim_spec {b : Bullet} {ps : PlayerMap} {pid : Nat} {p : Player}
    (hv : findVictim b ps = some (pid, p)) :
    (pid, p) ∈ ps ∧ pid ≠ b.owner_id ∧ p.is_dead = false ∧ overlaps b p = true := by
  have hmem := List.mem_of_find?_eq_some hv
  have hpred := List.find?_some hv
  simp only [eligible, Bool.and_eq_true, Bool.not_eq_true', beq_eq_false_iff_ne, ne_eq] at hpred
  exact ⟨hmem, hpred.1.1, hpred.1.2, hpred.2⟩

theorem resolveBullet_of_findVictim {b : Bullet} {ps : PlayerMap} {pid : Nat} {p : Player}
    (hv : findVictim b ps = some (pid, p)) :
    resolveBullet b ps = (applyHit b.owner_id pid p ps, true) := by
  simp [resolveBullet, hv]

theorem resolveBullet_of_none {b : Bullet} {ps : PlayerMap}
    (hv : findVictim b ps = none) : resolveBullet b ps = (ps, false) := by
  simp [resolveBullet, hv]

theorem applyHit_lookup_victim {ps : PlayerMap} {owner pid : Nat} {p : Player}
    (hne : pid ≠ owner) (hp : lookupP ps pid = some p) :
    lookupP (applyHit owner pid p ps) pid =
      some (if p.health - DAMAGE ≤ 0 then { p with health := 0, is_dead := true }
            else { p with health := p.health - DAMAGE }) := by
  simp only [applyHit]
  split_ifs with hh hc
  · rw [lookupP_updateP_self, lookupP_updateP_ne _ _ _ _ hne, lookupP_updateP_self, hp]
    rfl
  · rw [lookupP_updateP_self, lookupP_updateP_self, hp]
    rfl
  · rw [lookupP_updateP_self, hp]
    rfl

theorem applyHit_lookup_owner {ps : PlayerMap} {owner pid : Nat} {p : Player}
    (hne : pid ≠ owner) :
    lookupP (applyHit owner pid p ps) owner =
      if p.health - DAMAGE ≤ 0 then
        (lookupP ps owner).map (fun q => { q with kills := q.kills + 1 })
      else lookupP ps owner := by
  have hne' : owner ≠ pid := fun hh => hne hh.symm
  have h1 : lookupP (updateP ps pid (fun q => { q with health := p.health - DAMAGE })) owner
      = lookupP ps owner := lookupP_updateP_ne _ _ _ _ hne'
  simp only [applyHit]
  split_ifs with hh hc
  · rw [lookupP_updateP_ne _ _ _ _ hne', lookupP_updateP_self, h1]
  · rw [containsP_eq_isSome, h1] at hc
    cases hlo : lookupP ps owner with
    | none =>
      rw [lookupP_updateP_ne _ _ _ _ hne', h1, hlo]
      rfl
    | some q => rw [hlo] at hc; simp at hc
  · exact h1

theorem applyHit_lookup_other {ps : PlayerMap} {owner pid k : Nat} {p : Player}
    (hk : k ≠ pid) (hko : k ≠ owner) :
    lookupP (applyHit owner pid p ps) k = lookupP ps k := by
  simp only [applyHit]
  split_ifs with hh hc
  · rw [lookupP_updateP_ne _ _ _ _ hk, lookupP_updateP_ne _ _ _ _ hko,
      lookupP_updateP_ne _ _ _ _ hk]
  · rw [lookupP_updateP_ne _ _ _ _ hk, lookupP_updateP_ne _ _ _ _ hk]
  · exact lookupP_updateP_ne _ _ _ _ hk

theorem keysOf_applyHit (ps : PlayerMap) (owner pid : Nat) (p : Player) :
    keysOf (applyHit owner pid p ps) = keysOf ps := by
  simp only [applyHit]
  split_ifs with hh hc
  · rw [keysOf_updateP, keysOf_updateP, keysOf_updateP]
  · rw [keysOf_updateP, keysOf_updateP]
  · exact keysOf_updateP _ _ _

theorem keysOf_resolveBullet (b : Bullet) (ps : PlayerMap) :
    keysOf (resolveBullet b ps).1 = keysOf ps := by
  cases hv : findVictim b ps with
  | none => rw [resolveBullet_of_none hv]
  | some v =>
    cases v with
    | mk pid p => rw [resolveBullet_of_findVictim hv]; exact keysOf_applyHit _ _ _ _

theorem resolveBullet_snd (b : Bullet) (ps : PlayerMap) :
    (resolveBullet b ps).2 = (findVictim b ps).isSome := by
  cases hv : findVictim b ps with
  | none => rw [resolveBullet_of_none hv]; simp [hv]
  | some v =>
    cases v with
    | mk pid p => rw [resolveBullet_of_findVictim hv]; simp [hv]

/-! ### Concrete states used to exercise the theorems -/

def ownerA : Player :=
  { pos := (0, 0), color := (60, 60, 60), health := 100, kills := 0, is_dead := false }

def victimA : Player :=
  { pos := (2, 3), color := (70, 70, 70), health := 25, kills := 0, is_dead := false }

def mapA : PlayerMap := [(0, ownerA), (1, victimA)]

def bulletA : Bullet := { x := 2, y := 3, dx := 0, dy := 0, owner_id := 0 }

/-- C1: when the collision resolver finds a bullet overlapping an eligible
victim (non-owner, non-dead), it subtracts exactly 25 from that victim's
health; if the result is ≤ 0 the health is clamped to 0, the victim's
is_dead is set, and the owner's kill counter grows by exactly 1 unless the
owner is no longer in the player map (then everyone else is untouched). -/
theorem C1_hit_damage_and_kill (b : Bullet) (ps : PlayerMap) (pid : Nat) (p : Player)
    (hnd : (keysOf ps).Nodup) (hv : findVictim b ps = some (pid, p)) :
    (¬ p.health - 25 ≤ 0 →
        lookupP (resolveBullet b ps).1 pid = some { p with health := p.health - 25 } ∧
        ∀ k, k ≠ pid → lookupP (resolveBullet b ps).1 k = lookupP ps k) ∧
    (p.health - 25 ≤ 0 →
        lookupP (resolveBullet b ps).1 pid = some { p with health := 0, is_dead := true } ∧
        (∀ q, lookupP ps b.owner_id = some q →
            lookupP (resolveBullet b ps).1 b.owner_id = some { q with kills := q.kills + 1 }) ∧
        (lookupP ps b.owner_id = none →
            ∀ k, k ≠ pid → lookupP (resolveBullet b ps).1 k = lookupP ps k)) := by
  obtain ⟨hmem, hneq, hdead, hov⟩ := findVictim_spec hv
  have hp : lookupP ps pid = some p := lookupP_of_mem_nodup hnd hmem
  have hD : DAMAGE = 25 := rfl
  rw [resolveBullet_of_findVictim hv]
  constructor
  · intro hh
    refine ⟨?_, ?_⟩
    · rw [applyHit_lookup_victim hneq hp, if_neg (by rw [hD]; exact hh)]
      rfl
    · intro k hk
      by_cases hko : k = b.owner_id
      · subst hko
        rw [applyHit_lookup_owner hneq, if_neg (by rw [hD]; exact hh)]
      · exact applyHit_lookup_other (by simpa using hk) hko
  · intro hh
    refine ⟨?_, ?_, ?_⟩
    · rw [applyHit_lookup_victim hneq hp, if_pos (by rw [hD]; exact hh)]
    · intro q hq
      rw [applyHit_lookup_owner hneq, if_pos (by rw [hD]; exact hh), hq]
      rfl
    · intro hnone k hk
      by_cases hko : k = b.owner_id
      · subst hko
        rw [applyHit_lookup_owner hneq, if_pos (by rw [hD]; exact hh), hnone]
        rfl
      · exact applyHit_lookup_other (by simpa using hk) hko

/-- Witness for C1 at a concrete two-player map where the hit is lethal. -/
theorem C1_hit_damage_and_kill_witness :
    ((keysOf mapA).Nodup ∧ findVictim bulletA mapA = some (1, victimA)) ∧
    lookupP (resolveBullet bulletA mapA).1 1 =
      some { victimA with health := 0, is_dead := true } ∧
    lookupP (resolveBullet bulletA mapA).1 0 = some { ownerA with kills := 1 } := by
  have hnd : (keysOf mapA).Nodup := by
    simp [keysOf, mapA]
  have hv : findVictim bulletA mapA = some (1, victimA) := by
    norm_num [findVictim, mapA, bulletA, ownerA, victimA, eligible, overlaps, List.find?]
    rfl
  have h := (C1_hit_damage_and_kill bulletA mapA 1 victimA hnd hv).2
    (by norm_num [victimA])
  refine ⟨⟨hnd, hv⟩, h.1, ?_⟩
  have h0 : lookupP mapA 0 = some ownerA := by
    norm_num [lookupP, mapA, List.find?]
  have := h.2.1 ownerA h0
  simpa [ownerA] using this

theorem applyHit_health_other {ps : PlayerMap} {owner pid k : Nat} {p : Player}
    (hne : pid ≠ owner) (hk : k ≠ pid) :
    (lookupP (applyHit owner pid p ps) k).map Player.health
      = (lookupP ps k).map Player.health ∧
    (lookupP (applyHit owner pid p ps) k).map Player.is_dead
      = (lookupP ps k).map Player.is_dead := by
  by_cases hko : k = owner
  · subst hko
    rw [applyHit_lookup_owner hne]
    split_ifs with hh
    · cases lookupP ps k with
      | none => exact ⟨rfl, rfl⟩
      | some q => exact ⟨rfl, rfl⟩
    · exact ⟨rfl, rfl⟩
  · rw [applyHit_lookup_other hk hko]
    exact ⟨rfl, rfl⟩

/-- C2: players are tested in list (dict insertion) order and only the first
overlapping eligible (non-owner, non-dead) player is damaged by a bullet; a
bullet that overlaps at least one eligible player is removed from the pass's
resulting bullet list, and one that overlaps none is kept there unchanged. -/
theorem C2_first_victim_and_removal (b : Bullet) (ps : PlayerMap) :
    (∀ pid p, findVictim b ps = some (pid, p) →
      (∃ l1 l2, ps = l1 ++ (pid, p) :: l2 ∧
        (∀ e ∈ l1, ¬(eligible b.owner_id e.1 e.2 = true ∧ overlaps b e.2 = true)) ∧
        eligible b.owner_id pid p = true ∧ overlaps b p = true) ∧
      (∀ k, k ≠ pid →
        (lookupP (resolveBullet b ps).1 k).map Player.health
          = (lookupP ps k).map Player.health ∧
        (lookupP (resolveBullet b ps).1 k).map Player.is_dead
          = (lookupP ps k).map Player.is_dead)) ∧
    ((resolveBullet b ps).2 = true ↔
      ∃ e ∈ ps, eligible b.owner_id e.1 e.2 = true ∧ overlaps b e.2 = true) ∧
    (∀ rest, check_bullet_collisions ps (b :: rest) =
      ((check_bullet_collisions (resolveBullet b ps).1 rest).1,
       (if (resolveBullet b ps).2 then [] else [b]) ++
         (check_bullet_collisions (resolveBullet b ps).1 rest).2)) := by
  refine ⟨?_, ?_, ?_⟩
  · intro pid p hv
    obtain ⟨hmem, hneq, hdead, hov⟩ := findVictim_spec hv
    constructor
    · obtain ⟨l1, l2, hps, hprev, hpx⟩ := find?_first _ ps (pid, p) hv
      refine ⟨l1, l2, hps, ?_, ?_, hov⟩
      · intro e he hcon
        have hy := hprev e he
        rw [hcon.1, hcon.2] at hy
        simp at hy
      · simp [eligible, hneq, hdead]
    · intro k hk
      rw [resolveBullet_of_findVictim hv]
      exact applyHit_health_other hneq hk
  · rw [resolveBullet_snd]
    rw [Option.isSome_iff_exists]
    constructor
    · rintro ⟨v, hv⟩
      have hmem := List.mem_of_find?_eq_some hv
      have hpred := List.find?_some hv
      simp only [Bool.and_eq_true] at hpred
      exact ⟨v, hmem, hpred.1, hpred.2⟩
    · rintro ⟨e, hmem, h1, h2⟩
      have hs : (ps.find? (fun e => eligible b.owner_id e.1 e.2 && overlaps b e.2)).isSome :=
        List.find?_isSome.mpr ⟨e, hmem, by simp [h1, h2]⟩
      exact Option.isSome_iff_exists.mp hs
  · intro rest
    cases h : (resolveBullet b ps).2 <;> simp [check_bullet_collisions, h]

/-- Witness for C2 at the concrete map: the bullet hits, is removed, and the
non-victim player's health is untouched. -/
theorem C2_first_victim_and_removal_witness :
    (resolveBullet bulletA mapA).2 = true ∧
    check_bullet_collisions mapA [bulletA] = ((resolveBullet bulletA mapA).1, []) ∧
    (lookupP (resolveBullet bulletA mapA).1 0).map Player.health
      = (lookupP mapA 0).map Player.health := by
  have h := C2_first_victim_and_removal bulletA mapA
  have hv : findVictim bulletA mapA = some (1, victimA) := by
    norm_num [findVictim, mapA, bulletA, ownerA, victimA, eligible, overlaps, List.find?]
    rfl
  have hhit : (resolveBullet bulletA mapA).2 = true := by
    rw [resolveBullet_snd, hv]
    rfl
  refine ⟨hhit, ?_, ((h.1 1 victimA hv).2 0 (by simp)).1⟩
  have h3 := h.2.2 []
  rw [h3, hhit]
  simp [check_bullet_collisions]

/-! ### Preservation of the state invariant -/

def HealthAll (ps : PlayerMap) : Prop := ∀ e ∈ ps, healthInv e.2

theorem mem_updateP_cases {ps : PlayerMap} {k : Nat} {f : Player → Player} {e : Nat × Player}
    (h : e ∈ updateP ps k f) :
    ∃ e0 ∈ ps, e.1 = e0.1 ∧ (e.2 = e0.2 ∨ e.2 = f e0.2) := by
  obtain ⟨e0, he0, heq⟩ := mem_updateP h
  by_cases hk : e0.1 = k
  · rw [if_pos hk] at heq
    exact ⟨e0, he0, by rw [heq], Or.inr (by rw [heq])⟩
  · rw [if_neg hk] at heq
    exact ⟨e0, he0, by rw [heq], Or.inl (by rw [heq])⟩

theorem bound_of_keysOf_eq {ps ps' : PlayerMap} {n : Nat} (hk : keysOf ps' = keysOf ps)
    (hb : ∀ e ∈ ps, e.1 < n) : ∀ e ∈ ps', e.1 < n := by
  intro e he
  have hmem : e.1 ∈ keysOf ps := by
    rw [← hk]
    exact List.mem_map_of_mem _ he
  obtain ⟨e0, he0, heq⟩ := List.mem_map.mp hmem
  exact heq ▸ hb e0 he0

theorem healthAll_resolveBullet {b : Bullet} {ps : PlayerMap}
    (hnd : (keysOf ps).Nodup) (hall : HealthAll ps) :
    HealthAll (resolveBullet b ps).1 := by
  cases hv : findVictim b ps with
  | none => rw [resolveBullet_of_none hv]; exact hall
  | some v =>
    obtain ⟨pid, p⟩ := v
    obtain ⟨hmem, hneq, hdeadf, hov⟩ := findVictim_spec hv
    have hp := lookupP_of_mem_nodup hnd hmem
    have hinvp : healthInv p := hall _ hmem
    rw [resolveBullet_of_findVictim hv]
    intro e he
    obtain ⟨k, q⟩ := e
    have hnd2 : (keysOf (applyHit b.owner_id pid p ps)).Nodup := by
      rw [keysOf_applyHit]; exact hnd
    have hq : lookupP (applyHit b.owner_id pid p ps) k = some q :=
      lookupP_of_mem_nodup hnd2 he
    show healthInv q
    by_cases hk : k = pid
    · rw [hk, applyHit_lookup_victim hneq hp] at hq
      by_cases hh : p.health - DAMAGE ≤ 0
      · rw [if_pos hh] at hq
        rw [← Option.some_inj.mp hq]
        exact ⟨le_refl 0, by norm_num, by simp⟩
      · rw [if_neg hh] at hq
        rw [← Option.some_inj.mp hq]
        obtain ⟨h0, h100, hz⟩ := hinvp
        have hD : DAMAGE = 25 := rfl
        rw [hD] at hh
        have hne0 : ¬ p.health - 25 = 0 := by omega
        refine ⟨?_, ?_, ?_⟩
        · show (0:Int) ≤ p.health - DAMAGE
          rw [hD]; omega
        · show p.health - DAMAGE ≤ 100
          rw [hD]; omega
        · show p.health - DAMAGE = 0 ↔ p.is_dead = true
          rw [hD, hdeadf]
          constructor
          · intro hc
            exact absurd hc hne0
          · intro hc
            simp at hc
    · by_cases hko : k = b.owner_id
      · rw [hko, applyHit_lookup_owner hneq] at hq
        by_cases hh : p.health - DAMAGE ≤ 0
        · rw [if_pos hh] at hq
          rw [Option.map_eq_some'] at hq
          obtain ⟨q0, hq0, hfq⟩ := hq
          have hinv0 := hall _ (mem_of_lookupP hq0)
          rw [← hfq]
          exact ⟨hinv0.1, hinv0.2.1, hinv0.2.2⟩
        · rw [if_neg hh] at hq
          exact hall _ (mem_of_lookupP hq)
      · rw [applyHit_lookup_other hk hko] at hq
        exact hall _ (mem_of_lookupP hq)

theorem keysOf_check_bullet_collisions (ps : PlayerMap) (bs : List Bullet) :
    keysOf (check_bullet_collisions ps bs).1 = keysOf ps := by
  induction bs generalizing ps with
  | nil => rfl
  | cons b rest ih =>
    show keysOf (check_bullet_collisions (resolveBullet b ps).1 rest).1 = keysOf ps
    rw [ih, keysOf_resolveBullet]

theorem healthAll_check_bullet_collisions {ps : PlayerMap} {bs : List Bullet}
    (hnd : (keysOf ps).Nodup) (hall : HealthAll ps) :
    HealthAll (check_bullet_collisions ps bs).1 := by
  induction bs generalizing ps with
  | nil => exact hall
  | cons b rest ih =>
    show HealthAll (check_bullet_collisions (resolveBullet b ps).1 rest).1
    apply ih
    · rw [keysOf_resolveBullet]; exact hnd
    · exact healthAll_resolveBullet hnd hall

theorem check_bullet_collisions_sublist (ps : PlayerMap) (bs : List Bullet) :
    (check_bullet_collisions ps bs).2.Sublist bs := by
  induction bs generalizing ps with
  | nil => exact List.Sublist.refl _
  | cons b rest ih =>
    show (if (resolveBullet b ps).2 then (check_bullet_collisions (resolveBullet b ps).1 rest).2
          else b :: (check_bullet_collisions (resolveBullet b ps).1 rest).2).Sublist (b :: rest)
    split_ifs
    · exact List.Sublist.cons b (ih _)
    · exact List.Sublist.cons₂ b (ih _)

theorem handleMessage_eq_cases (s : ServerState) (m : Msg) :
    handleMessage s m = s ∨
    (∃ pid p, m.player_id = some pid ∧ lookupP s.players pid = some p ∧ p.is_dead = false ∧
      (handleMessage s m = { s with players := (updateP s.players pid
          (fun q => { q with pos := (q.pos.1 + m.dx.getD 0, q.pos.2 + m.dy.getD 0) })) } ∨
       handleMessage s m = { s with bullets := s.bullets ++
          [{ x := p.pos.1, y := p.pos.2, dx := m.dx.getD 0 * BULLET_SPEED,
             dy := m.dy.getD 0 * BULLET_SPEED, owner_id := pid }] })) := by
  by_cases hdead : deadSender s.players m.player_id = true
  · left
    simp [handleMessage, hdead]
  · rw [Bool.not_eq_true] at hdead
    cases hpid : m.player_id with
    | none => left; simp [handleMessage, hpid, deadSender]
    | some pid =>
      cases hl : lookupP s.players pid with
      | none => left; simp [handleMessage, hpid, hl, deadSender]
      | some p =>
        have halive : p.is_dead = false := by
          rw [hpid] at hdead
          simpa [deadSender, hl] using hdead
        by_cases hmv : m.action = "move"
        · right
          refine ⟨pid, p, rfl, hl, halive, Or.inl ?_⟩
          simp [handleMessage, hpid, hl, hmv, deadSender, halive]
        · by_cases hsh : m.action = "shoot"
          · right
            refine ⟨pid, p, rfl, hl, halive, Or.inr ?_⟩
            simp [handleMessage, hpid, hl, hmv, hsh, deadSender, halive]
          · left
            simp [handleMessage, hmv, hsh]

theorem stateInv_mk {ps : PlayerMap} {bs : List Bullet} {cs : List Nat}
    {pc : List (Nat × Nat)} {n : Nat} {g : Option ℚ}
    (h1 : (keysOf ps).Nodup) (h2 : ∀ e ∈ ps, e.1 < n) (h3 : ∀ e ∈ ps, healthInv e.2) :
    StateInv { players := ps, bullets := bs, client_sockets := cs,
               player_connections := pc, next_player_id := n, game_start_time := g } :=
  ⟨h1, h2, h3⟩

theorem stateInv_handleMessage {s : ServerState} (m : Msg) (hinv : StateInv s) :
    StateInv (handleMessage s m) := by
  obtain ⟨hnd, hb, hh⟩ := hinv
  rcases handleMessage_eq_cases s m with heq | ⟨pid, p, _, _, _, heq | heq⟩
  · rw [heq]; exact ⟨hnd, hb, hh⟩
  · rw [heq]
    apply stateInv_mk
    · rw [keysOf_updateP]
      exact hnd
    · exact bound_of_keysOf_eq (keysOf_updateP _ _ _) hb
    · intro e he
      obtain ⟨e0, he0, _, hcase⟩ := mem_updateP_cases he
      rcases hcase with hsame | hupd
      · rw [hsame]; exact hh e0 he0
      · rw [hupd]; exact hh e0 he0
  · rw [heq]
    apply stateInv_mk
    · exact hnd
    · exact hb
    · exact hh

theorem stateInv_gameTick {s : ServerState} (hinv : StateInv s) :
    StateInv (gameTick s) := by
  obtain ⟨hnd, hb, hh⟩ := hinv
  refine ⟨?_, ?_, ?_⟩
  · show (keysOf (check_bullet_collisions s.players _).1).Nodup
    rw [keysOf_check_bullet_collisions]; exact hnd
  · exact bound_of_keysOf_eq (keysOf_check_bullet_collisions _ _) hb
  · exact healthAll_check_bullet_collisions hnd hh

theorem stateInv_clientTeardown {s : ServerState} (pid conn : Nat) (hinv : StateInv s) :
    StateInv (clientTeardown s pid conn) := by
  obtain ⟨hnd, hb, hh⟩ := hinv
  have hsub : (removeP s.players pid).Sublist s.players := List.filter_sublist _
  refine ⟨?_, ?_, ?_⟩
  · exact List.Nodup.sublist (List.Sublist.map _ hsub) hnd
  · intro e he
    exact hb e (hsub.subset he)
  · intro e he
    exact hh e (hsub.subset he)

theorem stateInv_acceptConnection {s : ServerState} (conn : Nat) (color : Nat × Nat × Nat)
    (now : ℚ) (hinv : StateInv s) :
    StateInv (acceptConnection s conn color now).1 := by
  obtain ⟨hnd, hb, hh⟩ := hinv
  unfold acceptConnection
  split_ifs with hfull
  · exact ⟨hnd, hb, hh⟩
  · simp only []
    have hc : containsP s.players s.next_player_id = false := by
      rw [containsP_eq_isSome]
      cases hl : lookupP s.players s.next_player_id with
      | none => rfl
      | some q =>
        have := hb _ (mem_of_lookupP hl)
        omega
    rw [insertP_not_contains hc]
    apply stateInv_mk
    · simp only [keysOf, List.map_append, List.map_cons, List.map_nil]
      rw [List.nodup_append]
      refine ⟨hnd, List.nodup_singleton _, ?_⟩
      intro a ha hmem
      obtain ⟨e0, he0, heq⟩ := List.mem_map.mp ha
      have := hb e0 he0
      simp only [List.mem_singleton] at hmem
      omega
    · intro e he
      rcases List.mem_append.mp he with hl | hr
      · have := hb e hl
        omega
      · simp only [List.mem_singleton] at hr
        rw [hr]
        exact Nat.lt_succ_self _
    · intro e he
      rcases List.mem_append.mp he with hl | hr
      · exact hh e hl
      · simp only [List.mem_singleton] at hr
        rw [hr]
        refine ⟨by norm_num, by norm_num, by simp⟩

theorem stateInv_applyOp {s : ServerState} (op : Op) (hinv : StateInv s) :
    StateInv (applyOp s op) := by
  cases op with
  | clientMsg m => exact stateInv_handleMessage m hinv
  | tick => exact stateInv_gameTick hinv
  | disconnect pid conn => exact stateInv_clientTeardown pid conn hinv
  | connect conn color now => exact stateInv_acceptConnection conn color now hinv

theorem stateInv_reachable {s : ServerState} (h : Reachable s) : StateInv s := by
  induction h with
  | init => exact ⟨List.nodup_nil, by simp [initState], by simp [initState]⟩
  | step s op _ ih => exact stateInv_applyOp op ih

/-- C3: in every reachable server state, each player's health lies in
[0, 100], and a player's health is 0 exactly when its is_dead flag is set. -/
theorem C3_health_invariant (s : ServerState) (h : Reachable s) :
    ∀ e ∈ s.players,
      (0 ≤ e.2.health ∧ e.2.health ≤ 100) ∧ (e.2.health = 0 ↔ e.2.is_dead = true) := by
  obtain ⟨_, _, hh⟩ := stateInv_reachable h
  intro e he
  obtain ⟨h1, h2, h3⟩ := hh e he
  exact ⟨⟨h1, h2⟩, h3⟩

def colorW : Nat × Nat × Nat := (50, 60, 70)

def playerW : Player :=
  { pos := (400, 300), color := colorW, health := 100, kills := 0, is_dead := false }

def stateW1 : ServerState := applyOp initState (Op.connect 0 colorW 0)

/-- Witness for C3: the state reached by one admission contains exactly the
fresh player, whose record satisfies the invariant. -/
theorem C3_health_invariant_witness :
    Reachable stateW1 ∧ (0, playerW) ∈ stateW1.players ∧
    ((0 ≤ playerW.health ∧ playerW.health ≤ 100) ∧
     (playerW.health = 0 ↔ playerW.is_dead = true)) := by
  have hr : Reachable stateW1 := Reachable.step _ _ Reachable.init
  have hmem : (0, playerW) ∈ stateW1.players := by
    simp [stateW1, applyOp, acceptConnection, initState, insertP, containsP, playerW,
      colorW, MAX_PLAYERS, START_THRESHOLD]
  exact ⟨hr, hmem, C3_health_invariant stateW1 hr (0, playerW) hmem⟩

/-- C4: in one tick every bullet is advanced by its velocity exactly once,
then culled against the closed rectangle [0,800] x [0,600], then collisions
are resolved (only removing bullets), and only then is the broadcast
snapshot taken; hence every bullet of the snapshot is in bounds. -/
theorem C4_tick_order_and_bounds (s : ServerState) (now : ℚ) :
    ((gameTick s).bullets.Sublist (s.bullets.map advanceBullet)) ∧
    (tickSnapshot s now).bullets = (gameTick s).bullets ∧
    (∀ b ∈ (tickSnapshot s now).bullets,
      (0 ≤ b.x ∧ b.x ≤ 800) ∧ (0 ≤ b.y ∧ b.y ≤ 600)) := by
  have hsub1 : (gameTick s).bullets.Sublist ((s.bullets.map advanceBullet).filter inBounds) :=
    check_bullet_collisions_sublist _ _
  refine ⟨hsub1.trans (List.filter_sublist _), rfl, ?_⟩
  intro b hb
  have hbmem : b ∈ (s.bullets.map advanceBullet).filter inBounds := hsub1.subset hb
  have hbi : inBounds b = true := List.of_mem_filter hbmem
  simp only [inBounds, Bool.and_eq_true, decide_eq_true_eq] at hbi
  exact ⟨⟨hbi.1.1.1, hbi.1.1.2⟩, ⟨hbi.1.2, hbi.2⟩⟩

def bulletB : Bullet := { x := 1, y := 1, dx := 1, dy := 1, owner_id := 0 }

def stateB : ServerState :=
  { players := [], bullets := [bulletB], client_sockets := [], player_connections := [],
    next_player_id := 0, game_start_time := none }

/-- Witness for C4: a concrete surviving bullet of a tick's snapshot, with
its bounds read off through the theorem. -/
theorem C4_tick_order_and_bounds_witness :
    advanceBullet bulletB ∈ (tickSnapshot stateB 0).bullets ∧
    ((0 ≤ (advanceBullet bulletB).x ∧ (advanceBullet bulletB).x ≤ 800) ∧
     (0 ≤ (advanceBullet bulletB).y ∧ (advanceBullet bulletB).y ≤ 600)) := by
  have hmem : advanceBullet bulletB ∈ (tickSnapshot stateB 0).bullets := by
    norm_num [tickSnapshot, broadcastState, gameTick, stateB, bulletB, advanceBullet,
      inBounds, check_bullet_collisions, resolveBullet, findVictim]
  exact ⟨hmem, (C4_tick_order_and_bounds stateB 0).2.2 _ hmem⟩

/-! ### Scenario A of the spec: two players, three shots, one tick -/

def ownerS : Player :=
  { pos := (0, 0), color := (80, 80, 80), health := 100, kills := 0, is_dead := false }

def victimH (h : Int) : Player :=
  { pos := (10, 0), color := (90, 90, 90), health := h, kills := 0, is_dead := false }

def stateS : ServerState :=
  { players := [(0, ownerS), (1, victimH 100)], bullets := [], client_sockets := [0, 1],
    player_connections := [(0, 0), (1, 1)], next_player_id := 2, game_start_time := none }

def shootS : Msg := { action := "shoot", player_id := some 0, dx := some 1, dy := some 0 }

def bshot : Bullet := { x := 0, y := 0, dx := 10, dy := 0, owner_id := 0 }

def badv : Bullet := { x := 10, y := 0, dx := 10, dy := 0, owner_id := 0 }

def afterS : ServerState :=
  gameTick (handleMessage (handleMessage (handleMessage stateS shootS) shootS) shootS)

theorem scenarioA_overlap : ∀ h : Int,
    overlaps { x := 10, y := 0, dx := 10, dy := 0, owner_id := 0 }
      { pos := (10, 0), color := (90, 90, 90), health := h, kills := 0, is_dead := false }
      = true := by
  intro h
  simp [overlaps]
  norm_num

theorem scenarioA_shots :
    handleMessage (handleMessage (handleMessage stateS shootS) shootS) shootS
      = { stateS with bullets := [bshot, bshot, bshot] } := by
  simp [handleMessage, stateS, shootS, deadSender, lookupP, List.find?, ownerS,
    victimH, BULLET_SPEED, bshot]

theorem scenarioA_collisions :
    check_bullet_collisions [(0, ownerS), (1, victimH 100)] [badv, badv, badv]
      = ([(0, ownerS), (1, victimH 25)], []) := by
  simp [check_bullet_collisions, resolveBullet, findVictim, List.find?, eligible,
    applyHit, DAMAGE, updateP, lookupP, containsP, ownerS, victimH, scenarioA_overlap, badv]

theorem scenarioA_moved :
    List.map advanceBullet [bshot, bshot, bshot] = [badv, badv, badv] := by
  simp [advanceBullet, bshot, badv]

theorem scenarioA_inBounds :
    inBounds { x := 10, y := 0, dx := 10, dy := 0, owner_id := 0 } = true := by
  simp [inBounds]
  norm_num

theorem scenarioA_filter :
    List.filter inBounds [badv, badv, badv] = [badv, badv, badv] := by
  simp [List.filter, scenarioA_inBounds, badv]

theorem afterS_eval : afterS
    = { stateS with players := [(0, ownerS), (1, victimH 25)], bullets := [] } := by
  show gameTick (handleMessage (handleMessage (handleMessage stateS shootS) shootS) shootS)
      = { stateS with players := [(0, ownerS), (1, victimH 25)], bullets := [] }
  rw [scenarioA_shots]
  simp only [gameTick, stateS, scenarioA_moved, scenarioA_filter, scenarioA_collisions]

/-- C5 is false on the code: with the owner at (0,0) and the victim at
(10,0), three shoot intents issued before the tick produce three bullets
that all hit in the same collision pass, so after one tick the victim's
health is 25, not 75. -/
theorem C5_counterexample :
    ¬ (lookupP afterS.players 1).map Player.health = some 75 := by
  rw [afterS_eval]
  simp [lookupP, List.find?, stateS, ownerS, victimH]

/-- C5 (amended): in the two-player world with the owner at (0,0) and the
victim at (10,0), three shoot intents along (1,0) issued before the next
tick leave the victim at health 25 after that tick (each of the three
bullets deals 25), the owner's kill counter at 0, and no live bullets. -/
theorem C5_three_shots_health :
    (lookupP afterS.players 1).map Player.health = some 25 ∧
    (lookupP afterS.players 0).map Player.kills = some 0 ∧
    afterS.bullets = [] := by
  rw [afterS_eval]
  refine ⟨?_, ?_, rfl⟩
  · simp [lookupP, List.find?, stateS, ownerS, victimH]
  · simp [lookupP, List.find?, stateS, ownerS, victimH]

/-- C6: a move or shoot intent whose sender is unknown or dead leaves the
whole state unchanged, and tearing down an absent player id leaves the
player map unchanged; all these operations are total (no error path). -/
theorem C6_noop_unknown_or_dead (s : ServerState) (m : Msg) (pid conn : Nat)
    (hm : m.player_id = none ∨
      (∃ q, m.player_id = some q ∧ lookupP s.players q = none) ∨
      deadSender s.players m.player_id = true)
    (hpid : lookupP s.players pid = none) :
    handleMessage s m = s ∧ (clientTeardown s pid conn).players = s.players := by
  constructor
  · rcases hm with hm | ⟨q, hq, hl⟩ | hm
    · simp [handleMessage, hm, deadSender]
    · simp [handleMessage, hq, hl, deadSender]
    · simp [handleMessage, hm]
  · show removeP s.players pid = s.players
    exact removeP_eq_self hpid

/-- Witness for C6: an intent from the unregistered id 5 and a teardown of
the unregistered id 5 on a concrete state are both no-ops. -/
theorem C6_noop_unknown_or_dead_witness :
    handleMessage stateB { action := "move", player_id := some 5, dx := some 1, dy := some 1 }
      = stateB ∧
    (clientTeardown stateB 5 9).players = stateB.players := by
  have hl : lookupP stateB.players 5 = none := by simp [lookupP, stateB]
  exact C6_noop_unknown_or_dead stateB
    { action := "move", player_id := some 5, dx := some 1, dy := some 1 } 5 9
    (Or.inr (Or.inl ⟨5, rfl, hl⟩)) hl

/-- C7: the session start timestamp is preserved by every operation once
set, it is set by an admission exactly when the post-admission player count
reaches the threshold 4, and the broadcast time_left is the full 300 before
the session starts and max 0 (300 - elapsed) (hence never negative) after. -/
theorem C7_session_clock (s : ServerState) (op : Op) (t now : ℚ) (conn : Nat)
    (color : Nat × Nat × Nat) :
    (s.game_start_time = some t → (applyOp s op).game_start_time = some t) ∧
    (s.game_start_time = none → s.players.length < MAX_PLAYERS →
      containsP s.players s.next_player_id = false →
      (((acceptConnection s conn color now).1.game_start_time = some now ↔
          s.players.length + 1 ≥ START_THRESHOLD) ∧
       ((acceptConnection s conn color now).1.game_start_time = none ↔
          s.players.length + 1 < START_THRESHOLD))) ∧
    (s.game_start_time = none → (broadcastState s now).time_left = 300) ∧
    (s.game_start_time = some t →
      (broadcastState s now).time_left = max 0 (300 - (now - t))) ∧
    0 ≤ (broadcastState s now).time_left := by
  refine ⟨?_, ?_, ?_, ?_, ?_⟩
  · intro hset
    cases op with
    | clientMsg m =>
      show (handleMessage s m).game_start_time = some t
      rcases handleMessage_eq_cases s m with heq | ⟨pid, p, _, _, _, heq | heq⟩ <;>
        rw [heq] <;> exact hset
    | tick => exact hset
    | disconnect pid2 conn2 => exact hset
    | connect conn2 color2 now2 =>
      show (acceptConnection s conn2 color2 now2).1.game_start_time = some t
      unfold acceptConnection
      simp only []
      split_ifs with hfull hcond
      · exact hset
      · rw [hset] at hcond
        simp at hcond
      · exact hset
  · intro h0 hlt hc
    unfold acceptConnection
    rw [if_neg (by omega)]
    simp only []
    rw [insertP_not_contains hc]
    have hlen : (s.players ++ [(s.next_player_id,
        ({ pos := (400, 300), color := color, health := 100, kills := 0,
           is_dead := false } : Player))]).length = s.players.length + 1 := by
      simp
    by_cases hth : s.players.length + 1 ≥ START_THRESHOLD
    · rw [if_pos ⟨h0, by rw [hlen]; exact hth⟩]
      constructor
      · simp [hth]
      · constructor
        · intro hcon
          simp at hcon
        · intro hcon
          exact absurd hcon (by omega)
    · rw [if_neg (fun hand => hth (hlen ▸ hand.2))]
      rw [h0]
      constructor
      · simp [hth]
      · simp
        omega
  · intro h0
    show timeLeft s.game_start_time now = 300
    rw [h0]
    rfl
  · intro hset
    show timeLeft s.game_start_time now = max 0 (300 - (now - t))
    rw [hset]
    rfl
  · show 0 ≤ timeLeft s.game_start_time now
    cases hg : s.game_start_time with
    | none =>
      show (0:ℚ) ≤ GAME_DURATION
      norm_num [GAME_DURATION]
    | some t0 =>
      show (0:ℚ) ≤ max 0 (GAME_DURATION - (now - t0))
      exact le_max_left 0 _

def stateC7 : ServerState :=
  { players := [(0, ownerA), (1, ownerA), (2, ownerA)], bullets := [], client_sockets := [],
    player_connections := [], next_player_id := 3, game_start_time := none }

/-- Witness for C7: admitting a 4th player at time 5 starts the session,
a tick preserves the timestamp, and the pre-session time_left is 300. -/
theorem C7_session_clock_witness :
    (acceptConnection stateC7 9 colorW 5).1.game_start_time = some 5 ∧
    (applyOp (acceptConnection stateC7 9 colorW 5).1 Op.tick).game_start_time = some 5 ∧
    (broadcastState stateC7 7).time_left = 300 ∧
    0 ≤ (broadcastState stateC7 7).time_left := by
  have h0 : stateC7.game_start_time = none := rfl
  have hlt : stateC7.players.length < MAX_PLAYERS := by
    simp [stateC7, MAX_PLAYERS]
  have hc : containsP stateC7.players stateC7.next_player_id = false := by
    simp [containsP, stateC7]
  have hstart := (((C7_session_clock stateC7 Op.tick 5 5 9 colorW).2.1) h0 hlt hc).1.mpr
    (by simp [stateC7, START_THRESHOLD])
  refine ⟨hstart, ?_, ?_, ?_⟩
  · exact (C7_session_clock (acceptConnection stateC7 9 colorW 5).1 Op.tick 5 5 9 colorW).1
      hstart
  · exact (C7_session_clock stateC7 Op.tick 5 7 9 colorW).2.2.1 h0
  · exact (C7_session_clock stateC7 Op.tick 5 7 9 colorW).2.2.2.2

/-- C8: an admission attempt at or above capacity returns the state fully
unchanged and sends exactly one server_full message. -/
theorem C8_server_full (s : ServerState) (conn : Nat) (color : Nat × Nat × Nat) (now : ℚ)
    (h : s.players.length ≥ MAX_PLAYERS) :
    acceptConnection s conn color now = (s, [OutMsg.server_full]) := by
  unfold acceptConnection
  rw [if_pos h]

def stateC8 : ServerState :=
  { players := [(0, ownerA), (1, ownerA), (2, ownerA), (3, ownerA), (4, ownerA)],
    bullets := [], client_sockets := [0, 1, 2, 3, 4],
    player_connections := [(0, 0), (1, 1), (2, 2), (3, 3), (4, 4)],
    next_player_id := 5, game_start_time := none }

/-- Witness for C8: a 6th connection against five registered players. -/
theorem C8_server_full_witness :
    stateC8.players.length ≥ MAX_PLAYERS ∧
    acceptConnection stateC8 9 colorW 0 = (stateC8, [OutMsg.server_full]) := by
  have h : stateC8.players.length ≥ MAX_PLAYERS := by
    simp [stateC8, MAX_PLAYERS]
  exact ⟨h, C8_server_full stateC8 9 colorW 0 h⟩

/-! ### Death is permanent -/

theorem fresh_id_not_contains {s : ServerState}
    (hb : ∀ e ∈ s.players, e.1 < s.next_player_id) :
    containsP s.players s.next_player_id = false := by
  rw [containsP_eq_isSome]
  cases hl : lookupP s.players s.next_player_id with
  | none => rfl
  | some q =>
    have := hb _ (mem_of_lookupP hl)
    omega

theorem acceptConnection_not_full {s : ServerState} {conn : Nat} {color : Nat × Nat × Nat}
    {now : ℚ} (h : ¬ s.players.length ≥ MAX_PLAYERS)
    (hc : containsP s.players s.next_player_id = false) :
    (acceptConnection s conn color now).1.players
        = s.players ++ [(s.next_player_id,
            { pos := (400, 300), color := color, health := 100, kills := 0,
              is_dead := false })] ∧
    (acceptConnection s conn color now).1.next_player_id = s.next_player_id + 1 := by
  unfold acceptConnection
  rw [if_neg h]
  simp only []
  rw [insertP_not_contains hc]
  constructor <;> trivial

theorem lookupP_none_of_keysOf_eq {ps ps' : PlayerMap} {pid : Nat}
    (hk : keysOf ps' = keysOf ps) (h : lookupP ps pid = none) :
    lookupP ps' pid = none := by
  rw [lookupP_eq_none_iff] at h ⊢
  intro e he
  have hmm : e.1 ∈ keysOf ps := by
    rw [← hk]
    exact List.mem_map_of_mem _ he
  obtain ⟨e0, he0, heq⟩ := List.mem_map.mp hmm
  rw [← heq]
  exact h e0 he0

theorem next_mono (s : ServerState) (op : Op) :
    s.next_player_id ≤ (applyOp s op).next_player_id := by
  cases op with
  | clientMsg m =>
    rcases handleMessage_eq_cases s m with heq | ⟨_, _, _, _, _, heq | heq⟩ <;>
      show s.next_player_id ≤ (handleMessage s m).next_player_id <;>
      rw [heq]
  | tick => exact le_refl _
  | disconnect pid2 conn2 => exact le_refl _
  | connect conn2 color2 now2 =>
    show s.next_player_id ≤ (acceptConnection s conn2 color2 now2).1.next_player_id
    unfold acceptConnection
    split_ifs with hfull
    · exact le_refl _
    · simp only []
      show s.next_player_id ≤ s.next_player_id + 1
      omega

theorem gone_step {s : ServerState} (op : Op) {pid : Nat}
    (hinv : StateInv s) (hn : lookupP s.players pid = none)
    (hlt : pid < s.next_player_id) :
    lookupP (applyOp s op).players pid = none ∧ pid < (applyOp s op).next_player_id := by
  obtain ⟨hnd, hb, _⟩ := hinv
  refine ⟨?_, lt_of_lt_of_le hlt (next_mono s op)⟩
  cases op with
  | clientMsg m =>
    rcases handleMessage_eq_cases s m with heq | ⟨pid2, p2, _, hl2, _, heq | heq⟩
    · show lookupP (handleMessage s m).players pid = none
      rw [heq]; exact hn
    · have hne : pid ≠ pid2 := by
        intro hc
        rw [← hc] at hl2
        rw [hn] at hl2
        simp at hl2
      show lookupP (handleMessage s m).players pid = none
      rw [heq]
      show lookupP (updateP s.players pid2 (fun q =>
        { q with pos := (q.pos.1 + m.dx.getD 0, q.pos.2 + m.dy.getD 0) })) pid = none
      rw [lookupP_updateP_ne _ _ _ _ hne]
      exact hn
    · show lookupP (handleMessage s m).players pid = none
      rw [heq]; exact hn
  | tick =>
    show lookupP (check_bullet_collisions s.players
      ((s.bullets.map advanceBullet).filter inBounds)).1 pid = none
    exact lookupP_none_of_keysOf_eq (keysOf_check_bullet_collisions _ _) hn
  | disconnect pid2 conn2 =>
    show lookupP (removeP s.players pid2) pid = none
    by_cases hc : pid = pid2
    · rw [hc]
      exact lookupP_removeP_self _ _
    · rw [lookupP_removeP_ne _ _ _ hc]
      exact hn
  | connect conn2 color2 now2 =>
    show lookupP (acceptConnection s conn2 color2 now2).1.players pid = none
    by_cases hfull : s.players.length ≥ MAX_PLAYERS
    · have hacc : acceptConnection s conn2 color2 now2 = (s, [OutMsg.server_full]) := by
        unfold acceptConnection
        rw [if_pos hfull]
      rw [hacc]
      exact hn
    · obtain ⟨hps, _⟩ := acceptConnection_not_full hfull (fresh_id_not_contains hb)
      rw [hps, lookupP_append_right _ _ _ hn, lookupP_eq_none_iff]
      intro e he
      simp only [List.mem_singleton] at he
      subst he
      show ¬ s.next_player_id = pid
      omega

theorem dead_resolveBullet {b : Bullet} {ps : PlayerMap} {pid : Nat} {p : Player}
    (hnd : (keysOf ps).Nodup) (hp : lookupP ps pid = some p) (hdead : p.is_dead = true) :
    ∃ p', lookupP (resolveBullet b ps).1 pid = some p' ∧ p'.is_dead = true ∧
      p'.health = p.health := by
  cases hv : findVictim b ps with
  | none =>
    rw [resolveBullet_of_none hv]
    exact ⟨p, hp, hdead, rfl⟩
  | some v =>
    obtain ⟨vid, vp⟩ := v
    obtain ⟨hmem, hneq, halive, hov⟩ := findVictim_spec hv
    rw [resolveBullet_of_findVictim hv]
    have hvp : lookupP ps vid = some vp := lookupP_of_mem_nodup hnd hmem
    have hvpid : vid ≠ pid := by
      intro hc
      rw [hc, hp] at hvp
      have hpeq := Option.some_inj.mp hvp
      rw [← hpeq] at halive
      rw [hdead] at halive
      exact absurd halive (by simp)
    by_cases hpo : pid = b.owner_id
    · subst hpo
      rw [applyHit_lookup_owner hneq]
      split_ifs with hh
      · rw [hp]
        exact ⟨{ p with kills := p.kills + 1 }, rfl, hdead, rfl⟩
      · exact ⟨p, hp, hdead, rfl⟩
    · rw [applyHit_lookup_other (fun hc => hvpid hc.symm) hpo]
      exact ⟨p, hp, hdead, rfl⟩

theorem dead_check {ps : PlayerMap} {bs : List Bullet} {pid : Nat} {p : Player}
    (hnd : (keysOf ps).Nodup) (hp : lookupP ps pid = some p) (hdead : p.is_dead = true) :
    ∃ p', lookupP (check_bullet_collisions ps bs).1 pid = some p' ∧ p'.is_dead = true ∧
      p'.health = p.health := by
  induction bs generalizing ps p with
  | nil => exact ⟨p, hp, hdead, rfl⟩
  | cons b rest ih =>
    obtain ⟨p1, hp1, hd1, hh1⟩ := dead_resolveBullet (b := b) hnd hp hdead
    obtain ⟨p2, hp2, hd2, hh2⟩ := ih (by rw [keysOf_resolveBullet]; exact hnd) hp1 hd1
    exact ⟨p2, hp2, hd2, by rw [hh2, hh1]⟩

theorem dead_step {s : ServerState} (op : Op) {pid : Nat} {p : Player}
    (hinv : StateInv s) (hp : lookupP s.players pid = some p) (hdead : p.is_dead = true) :
    lookupP (applyOp s op).players pid = none ∨
    ∃ p', lookupP (applyOp s op).players pid = some p' ∧ p'.is_dead = true ∧
      p'.health = p.health := by
  obtain ⟨hnd, hb, _⟩ := hinv
  cases op with
  | clientMsg m =>
    right
    rcases handleMessage_eq_cases s m with heq | ⟨pid2, p2, _, hl2, halive2, heq | heq⟩
    · show ∃ p', lookupP (handleMessage s m).players pid = some p' ∧ p'.is_dead = true ∧
        p'.health = p.health
      rw [heq]
      exact ⟨p, hp, hdead, rfl⟩
    · have hne : pid ≠ pid2 := by
        intro hc
        rw [← hc] at hl2
        rw [hp] at hl2
        have hpeq := Option.some_inj.mp hl2
        rw [← hpeq] at halive2
        rw [hdead] at halive2
        exact absurd halive2 (by simp)
      show ∃ p', lookupP (handleMessage s m).players pid = some p' ∧ p'.is_dead = true ∧
        p'.health = p.health
      rw [heq]
      refine ⟨p, ?_, hdead, rfl⟩
      show lookupP (updateP s.players pid2 (fun q =>
        { q with pos := (q.pos.1 + m.dx.getD 0, q.pos.2 + m.dy.getD 0) })) pid = some p
      rw [lookupP_updateP_ne _ _ _ _ hne]
      exact hp
    · show ∃ p', lookupP (handleMessage s m).players pid = some p' ∧ p'.is_dead = true ∧
        p'.health = p.health
      rw [heq]
      exact ⟨p, hp, hdead, rfl⟩
  | tick =>
    right
    show ∃ p', lookupP (check_bullet_collisions s.players
      ((s.bullets.map advanceBullet).filter inBounds)).1 pid = some p' ∧
      p'.is_dead = true ∧ p'.health = p.health
    exact dead_check hnd hp hdead
  | disconnect pid2 conn2 =>
    by_cases hc : pid = pid2
    · left
      show lookupP (removeP s.players pid2) pid = none
      rw [hc]
      exact lookupP_removeP_self _ _
    · right
      show ∃ p', lookupP (removeP s.players pid2) pid = some p' ∧ p'.is_dead = true ∧
        p'.health = p.health
      refine ⟨p, ?_, hdead, rfl⟩
      rw [lookupP_removeP_ne _ _ _ hc]
      exact hp
  | connect conn2 color2 now2 =>
    right
    show ∃ p', lookupP (acceptConnection s conn2 color2 now2).1.players pid = some p' ∧
      p'.is_dead = true ∧ p'.health = p.health
    by_cases hfull : s.players.length ≥ MAX_PLAYERS
    · have hacc : acceptConnection s conn2 color2 now2 = (s, [OutMsg.server_full]) := by
        unfold acceptConnection
        rw [if_pos hfull]
      rw [hacc]
      exact ⟨p, hp, hdead, rfl⟩
    · obtain ⟨hps, _⟩ := acceptConnection_not_full hfull (fresh_id_not_contains hb)
      rw [hps]
      refine ⟨p, ?_, hdead, rfl⟩
      rw [lookupP_append_left]
      · exact hp
      · rw [hp]
        simp

theorem gone_applyOps {pid : Nat} (ops : List Op) {s : ServerState}
    (hinv : StateInv s) (hn : lookupP s.players pid = none)
    (hlt : pid < s.next_player_id) :
    lookupP (applyOps s ops).players pid = none := by
  induction ops generalizing s with
  | nil => exact hn
  | cons op rest ih =>
    show lookupP (applyOps (applyOp s op) rest).players pid = none
    obtain ⟨hn2, hlt2⟩ := gone_step op hinv hn hlt
    exact ih (stateInv_applyOp op hinv) hn2 hlt2

/-- C9: once a player's is_dead flag is set, no later sequence of
operations ever clears it or raises that player's health while the player
stays in the map (the structural invariants hold in every reachable state,
see stateInv_reachable). -/
theorem C9_death_permanent (s : ServerState) (ops : List Op) (pid : Nat) (p p' : Player)
    (hinv : StateInv s) (hp : lookupP s.players pid = some p) (hdead : p.is_dead = true)
    (hp' : lookupP (applyOps s ops).players pid = some p') :
    p'.is_dead = true ∧ p'.health ≤ p.health := by
  induction ops generalizing s p with
  | nil =>
    rw [show applyOps s [] = s from rfl] at hp'
    rw [hp] at hp'
    obtain rfl := Option.some_inj.mp hp'
    exact ⟨hdead, le_refl _⟩
  | cons op rest ih =>
    rw [show applyOps s (op :: rest) = applyOps (applyOp s op) rest from rfl] at hp'
    rcases dead_step op hinv hp hdead with hnone | ⟨p1, hp1, hd1, hh1⟩
    · have hlt : pid < s.next_player_id := hinv.2.1 _ (mem_of_lookupP hp)
      have hgone := gone_applyOps rest (stateInv_applyOp op hinv) hnone
        (lt_of_lt_of_le hlt (next_mono s op))
      rw [hp'] at hgone
      simp at hgone
    · have h2 := ih (applyOp s op) p1 (stateInv_applyOp op hinv) hp1 hd1 hp'
      exact ⟨h2.1, le_trans h2.2 (le_of_eq hh1)⟩

def deadP : Player :=
  { pos := (10, 0), color := (90, 90, 90), health := 0, kills := 0, is_dead := true }

def stateC9 : ServerState :=
  { players := [(0, ownerA), (1, deadP)], bullets := [], client_sockets := [],
    player_connections := [], next_player_id := 2, game_start_time := none }

/-- Witness for C9: a dead player stays dead across a tick. -/
theorem C9_death_permanent_witness :
    StateInv stateC9 ∧ lookupP (applyOps stateC9 [Op.tick]).players 1 = some deadP ∧
    deadP.is_dead = true ∧ deadP.health ≤ deadP.health := by
  have hinv : StateInv stateC9 := by
    refine ⟨?_, ?_, ?_⟩ <;> decide
  have hp : lookupP stateC9.players 1 = some deadP := by
    simp [lookupP, List.find?, stateC9]
  have hp2 : lookupP (applyOps stateC9 [Op.tick]).players 1 = some deadP := by
    simp [applyOps, applyOp, gameTick, stateC9, check_bullet_collisions, lookupP, List.find?]
  have h := C9_death_permanent stateC9 [Op.tick] 1 deadP deadP hinv hp rfl hp2
  exact ⟨hinv, hp2, h.1, h.2⟩

/-- C10: in a shoot intent from a live registered player, a missing dx or dy
defaults to 0, so the appended bullet sits at the shooter's position with
the corresponding velocity component 0; with both missing the bullet is
stationary (fixed by integration) yet still an observable state change; a
move intent with both components missing leaves the state unchanged. -/
theorem C10_missing_components_default (s : ServerState) (m : Msg) (pid : Nat) (p : Player)
    (hpid : m.player_id = some pid) (hp : lookupP s.players pid = some p)
    (halive : p.is_dead = false) :
    (m.action = "shoot" →
      handleMessage s m = { s with bullets := s.bullets ++
        [{ x := p.pos.1, y := p.pos.2, dx := m.dx.getD 0 * 10, dy := m.dy.getD 0 * 10,
           owner_id := pid }] } ∧
      (m.dx = none → m.dy = none →
        (handleMessage s m).bullets = s.bullets ++
          [{ x := p.pos.1, y := p.pos.2, dx := 0, dy := 0, owner_id := pid }] ∧
        (handleMessage s m).bullets.length = s.bullets.length + 1 ∧
        advanceBullet { x := p.pos.1, y := p.pos.2, dx := 0, dy := 0, owner_id := pid }
          = { x := p.pos.1, y := p.pos.2, dx := 0, dy := 0, owner_id := pid })) ∧
    (m.action = "move" → m.dx = none → m.dy = none → handleMessage s m = s) := by
  constructor
  · intro hsh
    have heq : handleMessage s m = { s with bullets := s.bullets ++
        [{ x := p.pos.1, y := p.pos.2, dx := m.dx.getD 0 * 10, dy := m.dy.getD 0 * 10,
           owner_id := pid }] } := by
      simp [handleMessage, hpid, hp, hsh, deadSender, halive, BULLET_SPEED]
    refine ⟨heq, ?_⟩
    intro hdx hdy
    rw [heq]
    refine ⟨?_, ?_, ?_⟩
    · simp [hdx, hdy]
    · simp
    · simp [advanceBullet]
  · intro hmv hdx hdy
    have heq : handleMessage s m = { s with players := (updateP s.players pid
        (fun q => { q with pos := (q.pos.1 + m.dx.getD 0, q.pos.2 + m.dy.getD 0) })) } := by
      simp [handleMessage, hpid, hp, hmv, deadSender, halive]
    rw [heq, hdx, hdy]
    have hid : updateP s.players pid
        (fun q => { q with pos := (q.pos.1 + (none : Option ℚ).getD 0,
                                   q.pos.2 + (none : Option ℚ).getD 0) }) = s.players := by
      simp [updateP]
    rw [hid]

def shootN : Msg := { action := "shoot", player_id := some 0, dx := none, dy := none }

def moveN : Msg := { action := "move", player_id := some 0, dx := none, dy := none }

/-- Witness for C10: a shoot with both fields missing appends a stationary
bullet at the shooter's position; a move with both missing is a no-op. -/
theorem C10_missing_components_default_witness :
    (handleMessage stateS shootN).bullets
      = [{ x := 0, y := 0, dx := 0, dy := 0, owner_id := 0 }] ∧
    handleMessage stateS moveN = stateS := by
  have hp : lookupP stateS.players 0 = some ownerS := by
    simp [lookupP, List.find?, stateS]
  have h1 := C10_missing_components_default stateS shootN 0 ownerS rfl hp rfl
  have h2 := C10_missing_components_default stateS moveN 0 ownerS rfl hp rfl
  constructor
  · have hb := ((h1.1 rfl).2 rfl rfl).1
    rw [hb]
    simp [stateS, ownerS]
  · exact h2.2 rfl rfl rfl
